import Mathlib

/-!
Shallow embedding of the `chrono-light` calendar engine (src/src/calendar.rs,
src/src/types.rs, src/src/utils.rs) and proofs of the specification claims.

Machine integers are modelled as `Nat`; wrapping casts (`as u16`, `as u32`)
are written as explicit `% 2^w` at the places the Rust code performs them.
`i64` intermediates in the Month/Year recurrence rules are modelled as `Int`
with the `as u32` cast written as a nonnegative remainder.
-/

namespace ChronoLight

/-- Modelled from the spec: `constants.rs` is not present under `src/`; the
glossary and section 4.1 fix the millisecond lengths of the fixed units. -/
def MS_IN_SEC : Nat := 1000

/-- Modelled from the spec: milliseconds in a minute. -/
def MS_IN_MIN : Nat := 60 * 1000

/-- Modelled from the spec: milliseconds in an hour. -/
def MS_IN_HOUR : Nat := 60 * 60 * 1000

/-- Modelled from the spec: milliseconds in a day. -/
def MS_IN_DAY : Nat := 24 * 60 * 60 * 1000

/-- Modelled from the spec: the epoch year 1970 (spec glossary, section 3). -/
def EPOCH_YEAR : Nat := 1970

/-- Modelled from the spec: `from_timestamp` scans "around a caching hint
(e.g. the current year)"; the repository's doc examples use 2022. -/
def CURRENT_YEAR : Nat := 2022

/-- Modelled from the spec: the Gregorian leap-year rule of section 4.1
("divisible by 4, except centuries not divisible by 400"), standing in for
membership in the `LEAP_YEARS` table of the missing `constants.rs`. -/
def isLeapYear (y : Nat) : Bool :=
  y % 4 == 0 && (y % 100 != 0 || y % 400 == 0)

/-- Modelled from the spec: day counts per month in a non-leap year
(section 4.3, also pinned by `test_validation` in src/src/tests.rs). -/
def MONTH_FOR_NON_LEAP_YEAR : List Nat :=
  [31, 28, 31, 30, 31, 30, 31, 31, 30, 31, 30, 31]

/-- Modelled from the spec: day counts per month in a leap year. -/
def MONTH_FOR_LEAP_YEAR : List Nat :=
  [31, 29, 31, 30, 31, 30, 31, 31, 30, 31, 30, 31]

/-- Modelled from the spec: cumulative month start offsets (ms) within a
non-leap year, 13 entries; `test_gen_calendar_offsets` in src/src/tests.rs
generates them as running sums of the month lengths. -/
def NON_LEAP_YEAR_MONTH_OFFSETS : List Nat :=
  [0, 31, 59, 90, 120, 151, 181, 212, 243, 273, 304, 334, 365].map (· * MS_IN_DAY)

/-- Modelled from the spec: cumulative month start offsets (ms) within a
leap year, 13 entries. -/
def LEAP_YEAR_MONTH_OFFSETS : List Nat :=
  [0, 31, 60, 91, 121, 152, 182, 213, 244, 274, 305, 335, 366].map (· * MS_IN_DAY)

/-- Length of a year in ms, per the leap-year status. -/
def yearLenMs (y : Nat) : Nat :=
  (if isLeapYear y then 366 else 365) * MS_IN_DAY

/-- Modelled from the spec: the cumulative year offset table
(`YEAR_MS_OFFSETS` of the missing `constants.rs`), entry `i` holding the ms
from the epoch to the start of year `1970 + i`; `test_gen_calendar_offsets`
generates it as a running sum over years 1970..3999, 2031 entries. Embedded
as the indexing function of that table. -/
def year_ms_offsets : Nat → Nat
  | 0 => 0
  | n + 1 => year_ms_offsets n + yearLenMs (EPOCH_YEAR + n)

/-- Modelled from the spec: the year table has 2031 entries, covering years
1970..=4000 (spec section 3: year "bounded to a fixed range, e.g. 1970–4000
inclusive"). -/
def YEAR_TABLE_LEN : Nat := 2031

/-- `DateTime` of src/src/types.rs; the `u16`/`u8` fields are modelled as
`Nat`. -/
structure DateTime where
  year   : Nat
  month  : Nat
  day    : Nat
  hour   : Nat
  minute : Nat
  second : Nat
  ms     : Nat
deriving DecidableEq, Repr

/-- `DateTime::to_day_unixtime` of src/src/types.rs. -/
def DateTime.to_day_unixtime (dt : DateTime) : Nat :=
  (dt.day - 1) * MS_IN_DAY
    + dt.hour * MS_IN_HOUR
    + dt.minute * MS_IN_MIN
    + dt.second * MS_IN_SEC
    + dt.ms

/-- `Frequency` of src/src/types.rs. -/
inductive Frequency where
  | Year
  | Month
  | Week
  | Day
  | Hour
  | Minute
  | Second
  | Ms
deriving DecidableEq, Repr

/-- The `repr(u32)` discriminant values of `Frequency`. -/
def Frequency.val : Frequency → Nat
  | .Year => 666
  | .Month => 999
  | .Week => 7 * MS_IN_DAY
  | .Day => MS_IN_DAY
  | .Hour => MS_IN_HOUR
  | .Minute => MS_IN_MIN
  | .Second => MS_IN_SEC
  | .Ms => 1

/-- `Schedule` of src/src/types.rs; the field `end` is a Lean keyword and is
embedded as `stop`. -/
structure Schedule where
  start : DateTime
  items : List (Frequency × Nat)
  stop  : Option DateTime
deriving DecidableEq, Repr

/-- `ValidationResult` used by `Calendar::validate` in src/src/calendar.rs
(three-way outcome, spec section 3). -/
inductive ValidationResult where
  | Valid
  | OutOfScope
  | Invalid
deriving DecidableEq, Repr

/-- `ceil_div` of src/src/utils.rs. -/
def ceil_div (x y : Nat) : Nat :=
  x / y + (if x % y != 0 then 1 else 0)

/-- The month offset table `to_unixtime`/`from_unixtime` select by the leap
status of the year. -/
def monthOffsets (year : Nat) : List Nat :=
  if isLeapYear year then LEAP_YEAR_MONTH_OFFSETS else NON_LEAP_YEAR_MONTH_OFFSETS

/-- `Calendar::to_unixtime` of src/src/calendar.rs (total model; the panic
conditions are tracked separately by `to_unixtimeChecked`). -/
def to_unixtime (dt : DateTime) : Nat :=
  year_ms_offsets (dt.year - EPOCH_YEAR)
    + (monthOffsets dt.year).getD (dt.month - 1) 0
    + (dt.day - 1) * MS_IN_DAY
    + dt.hour * MS_IN_HOUR
    + dt.minute * MS_IN_MIN
    + dt.second * MS_IN_SEC
    + dt.ms

/-- `Calendar::to_unixtime` with its panic conditions made explicit:
`none` exactly when the Rust code panics (year below the epoch or beyond the
table, `month - 1` or `day - 1` underflow via `checked_sub(..).expect`, or a
month-table index out of bounds; the month tables have 13 entries so index
`month - 1` is in bounds up to `month = 13`). -/
def to_unixtimeChecked (dt : DateTime) : Option Nat :=
  if dt.year < EPOCH_YEAR then none
  else if YEAR_TABLE_LEN ≤ dt.year - EPOCH_YEAR then none
  else if dt.month = 0 then none
  else if 13 < dt.month then none
  else if dt.day = 0 then none
  else some (to_unixtime dt)

/-- The ascending year scan of `Calendar::from_unixtime`
(`while ts > year_ms_offsets[year+1] { year += 1 }`), with explicit fuel;
the fuel is never exhausted for a timestamp within the table range. -/
def yearScanUp (ts : Nat) : Nat → Nat → Nat
  | y, 0 => y
  | y, fuel + 1 =>
    if year_ms_offsets (y + 1) < ts then yearScanUp ts (y + 1) fuel else y

/-- The descending year scan of `Calendar::from_unixtime`
(`year -= 1; while ts < year_ms_offsets[year] { year -= 1 }`), entered with
the already decremented index. -/
def yearScanDown (ts : Nat) : Nat → Nat
  | 0 => 0
  | y + 1 => if ts < year_ms_offsets (y + 1) then yearScanDown ts y else y + 1

/-- The month scan of `Calendar::from_unixtime`
(`while year_offset > month_offsets[month-1] { month += 1 }`), with explicit
fuel; 14 steps always suffice for an in-range year offset. -/
def monthScan (mo : List Nat) (yearOffset : Nat) : Nat → Nat → Nat
  | m, 0 => m
  | m, fuel + 1 =>
    if mo.getD (m - 1) 0 < yearOffset then monthScan mo yearOffset (m + 1) fuel else m

/-- The year-locating phase of `Calendar::from_unixtime`: scan up from the
hint when `ts` lies above the hint year's offset, otherwise scan down from
the predecessor of the hint. -/
def findYear (ts : Nat) : Nat :=
  let hint := CURRENT_YEAR - EPOCH_YEAR
  if year_ms_offsets hint < ts then yearScanUp ts hint YEAR_TABLE_LEN
  else yearScanDown ts (hint - 1)

/-- The month-locating phase of `Calendar::from_unixtime`: scan only when
the offset into the year is positive, then step back by one. -/
def findMonth (mo : List Nat) (year_offset : Nat) : Nat :=
  if 0 < year_offset then monthScan mo year_offset 1 14 - 1 else 1

/-- `Calendar::from_unixtime` of src/src/calendar.rs. The `as u16`/`as u8`
casts on the produced fields are written as explicit remainders. -/
def from_unixtime (ts : Nat) : DateTime :=
  let year := findYear ts
  let year_offset := ts - year_ms_offsets year
  let mo := monthOffsets (year + EPOCH_YEAR)
  let month := findMonth mo year_offset
  let day_offset := year_offset - mo.getD (month - 1) 0
  { year := (year + EPOCH_YEAR) % 65536
    month := month % 256
    day := (day_offset / MS_IN_DAY + 1) % 256
    hour := (day_offset % MS_IN_DAY / MS_IN_HOUR) % 256
    minute := (day_offset % MS_IN_HOUR / MS_IN_MIN) % 256
    second := (day_offset % MS_IN_MIN / MS_IN_SEC) % 256
    ms := (day_offset % MS_IN_SEC) % 65536 }

/-- `Calendar::validate` of src/src/calendar.rs. -/
def validate (dt : DateTime) : ValidationResult :=
  if ¬ (EPOCH_YEAR ≤ dt.year ∧ dt.year ≤ EPOCH_YEAR + YEAR_TABLE_LEN - 1) then
    ValidationResult.OutOfScope
  else if ¬ (1 ≤ dt.month ∧ dt.month ≤ 12) ∨ ¬ (1 ≤ dt.day ∧ dt.day ≤ 31)
      ∨ 24 ≤ dt.hour ∨ 60 ≤ dt.minute ∨ 60 ≤ dt.second ∨ 1000 ≤ dt.ms then
    ValidationResult.Invalid
  else if (isLeapYear dt.year && decide (MONTH_FOR_LEAP_YEAR.getD (dt.month - 1) 0 < dt.day))
      || (!isLeapYear dt.year && decide (MONTH_FOR_NON_LEAP_YEAR.getD (dt.month - 1) 0 < dt.day)) then
    ValidationResult.Invalid
  else
    ValidationResult.Valid

/-- The `i64 as u32` cast of the Month/Year recurrence rules. -/
def u32cast (x : Int) : Nat :=
  (x % 4294967296).toNat

/-- The `m_delta` intermediate of the Month/Year recurrence rules. -/
def m_deltaInt (start now : DateTime) : Int :=
  (now.month : Int) - (start.month : Int)
    + (if start.to_day_unixtime ≤ now.to_day_unixtime then 1 else 0)

/-- The `y_delta` intermediate of the Year recurrence rule. -/
def y_deltaInt (start now : DateTime) : Int :=
  (now.year : Int) - (start.year : Int) + (if 0 < m_deltaInt start now then 1 else 0)

/-- The `total_m_delta` intermediate of the Month recurrence rule. -/
def total_m_deltaInt (start now : DateTime) : Int :=
  ((now.year : Int) - (start.year : Int)) * 12 + m_deltaInt start now

/-- The `total_y_from_start` value of the Year rule, with the wrapping `u32`
product written as `% 2^32`. -/
def total_y_from_start (start now : DateTime) (multiplier : Nat) : Nat :=
  ceil_div (u32cast (y_deltaInt start now)) multiplier * multiplier % 4294967296

/-- The `total_m_from_start` value of the Month rule. -/
def total_m_from_start (start now : DateTime) (multiplier : Nat) : Nat :=
  ceil_div (u32cast (total_m_deltaInt start now)) multiplier * multiplier % 4294967296

/-- The candidate next occurrence of the Year rule; the `as u16` cast on the
year is written as `% 65536` (wrapping semantics). -/
def yearCandidate (start now : DateTime) (multiplier : Nat) : DateTime :=
  { year := (start.year + total_y_from_start start now multiplier % 65536) % 65536
    month := start.month
    day := start.day
    hour := start.hour
    minute := start.minute
    second := start.second
    ms := start.ms }

/-- The candidate next occurrence of the Month rule; the `as u16` cast on
the derived year increment is written as `% 65536`. -/
def monthCandidate (start now : DateTime) (multiplier : Nat) : DateTime :=
  { year := (start.year + (start.month + total_m_from_start start now multiplier - 1) / 12 % 65536) % 65536
    month := (start.month + total_m_from_start start now multiplier - 1) % 12 + 1
    day := start.day
    hour := start.hour
    minute := start.minute
    second := start.second
    ms := start.ms }

/-- The per-rule delta computed inside `Calendar::next_occurrence_ms`
(the closure mapped over `schedule.items`). -/
def ruleDelta (start now : DateTime) (startMs nowMs : Nat) :
    Frequency × Nat → Nat
  | (Frequency.Year, multiplier) =>
    to_unixtime (yearCandidate start now multiplier) - to_unixtime now
  | (Frequency.Month, multiplier) =>
    to_unixtime (monthCandidate start now multiplier) - to_unixtime now
  | (freq, multiplier) =>
    let freq_in_ms := freq.val * multiplier
    let ms_in_this_period := (nowMs - startMs) % freq_in_ms
    if ms_in_this_period = 0 then freq_in_ms else freq_in_ms - ms_in_this_period

/-- `Calendar::next_occurrence_ms` of src/src/calendar.rs. -/
def next_occurrence_ms (now : DateTime) (schedule : Schedule) : Option Nat :=
  let now_in_ms := to_unixtime now
  let start_in_ms := to_unixtime schedule.start
  let is_expired :=
    match schedule.stop with
    | some end_dt => decide (to_unixtime end_dt < now_in_ms)
    | none => false
  if now_in_ms < start_in_ms then
    some (start_in_ms - now_in_ms)
  else if is_expired then
    none
  else
    match (schedule.items.map (ruleDelta schedule.start now start_in_ms now_in_ms)).min? with
    | some trigger =>
      match schedule.stop with
      | none => some trigger
      | some e => if now_in_ms + trigger ≤ to_unixtime e then some trigger else none
    | none => none

/-- The while loop of `Calendar::next_occurrence_ms_with_past_triggers`,
with explicit fuel; each recorded trigger strictly advances the cursor for
any schedule whose deltas are positive, so the caller's fuel suffices. -/
def pastTriggersLoop (schedule : Schedule) (nowMs : Nat) :
    DateTime → Nat → List Nat → Option Nat → Nat → List Nat × Option Nat
  | _, _, triggers, next_trigger, 0 => (triggers, next_trigger)
  | last_run, last_run_ms, triggers, next_trigger, fuel + 1 =>
    if last_run_ms ≤ nowMs then
      match next_occurrence_ms last_run schedule with
      | some d =>
        let trigger_ms := d + last_run_ms
        if trigger_ms ≤ nowMs then
          pastTriggersLoop schedule nowMs (from_unixtime trigger_ms) trigger_ms
            (triggers ++ [trigger_ms]) (some trigger_ms) fuel
        else
          (triggers, some trigger_ms)
      | none => (triggers, none)
    else
      (triggers, next_trigger)

/-- `Calendar::next_occurrence_ms_with_past_triggers` of src/src/calendar.rs. -/
def next_occurrence_ms_with_past_triggers
    (last_run : Option DateTime) (now : DateTime) (schedule : Schedule) :
    List Nat × Option Nat :=
  let t0 : DateTime := ⟨1970, 1, 1, 0, 0, 0, 0⟩
  let now_ms := to_unixtime now
  let lr := last_run.getD t0
  let lr_ms := to_unixtime lr
  let r := pastTriggersLoop schedule now_ms lr lr_ms [] none (now_ms + 2 - lr_ms)
  (r.1, r.2.map (· - now_ms))

example : to_unixtime ⟨2010, 10, 10, 10, 10, 10, 10⟩ = 1286705410010 := by decide

example : from_unixtime 1650863010000 = ⟨2022, 4, 25, 5, 3, 30, 0⟩ := by decide

/-- Modelled from the spec: the exact month length for a year's leap status
(spec section 4.3: "28/29 for February depending on leap year, standard
lengths otherwise"), used to state the Validator claim in the spec's own
terms, independently of the embedded tables. -/
def daysInMonth (y m : Nat) : Nat :=
  match m with
  | 1 => 31
  | 2 => if isLeapYear y then 29 else 28
  | 3 => 31
  | 4 => 30
  | 5 => 31
  | 6 => 30
  | 7 => 31
  | 8 => 31
  | 9 => 30
  | 10 => 31
  | 11 => 30
  | 12 => 31
  | _ => 0

lemma daysInMonth_le_31 (y m : Nat) : daysInMonth y m ≤ 31 := by
  unfold daysInMonth
  split <;> (try split_ifs) <;> omega

lemma daysInMonth_pos (y m : Nat) (h1 : 1 ≤ m) (h2 : m ≤ 12) :
    1 ≤ daysInMonth y m := by
  interval_cases m <;>
    first
    | (simp only [daysInMonth]; omega)
    | (simp only [daysInMonth]; split_ifs <;> omega)

lemma leap_check_iff (y m d : Nat) (h1 : 1 ≤ m) (h2 : m ≤ 12) :
    (((isLeapYear y && decide (MONTH_FOR_LEAP_YEAR.getD (m - 1) 0 < d))
      || (!isLeapYear y && decide (MONTH_FOR_NON_LEAP_YEAR.getD (m - 1) 0 < d))) = true)
      ↔ daysInMonth y m < d := by
  cases h : isLeapYear y <;>
    interval_cases m <;>
      simp [h, daysInMonth, MONTH_FOR_LEAP_YEAR, MONTH_FOR_NON_LEAP_YEAR]

/-- Full characterization of `validate`, shared by several claims. -/
lemma validate_characterization (dt : DateTime) :
    (validate dt = ValidationResult.OutOfScope ↔ dt.year < 1970 ∨ 4000 < dt.year) ∧
    (validate dt = ValidationResult.Valid ↔
      (1970 ≤ dt.year ∧ dt.year ≤ 4000 ∧ 1 ≤ dt.month ∧ dt.month ≤ 12 ∧
       1 ≤ dt.day ∧ dt.day ≤ daysInMonth dt.year dt.month ∧
       dt.hour < 24 ∧ dt.minute < 60 ∧ dt.second < 60 ∧ dt.ms < 1000)) ∧
    (validate dt = ValidationResult.Invalid ↔
      ((1970 ≤ dt.year ∧ dt.year ≤ 4000) ∧
       (¬ (1 ≤ dt.month ∧ dt.month ≤ 12) ∨ ¬ (1 ≤ dt.day ∧ dt.day ≤ 31) ∨
        24 ≤ dt.hour ∨ 60 ≤ dt.minute ∨ 60 ≤ dt.second ∨ 1000 ≤ dt.ms ∨
        daysInMonth dt.year dt.month < dt.day))) := by
  have hd31 := daysInMonth_le_31 dt.year dt.month
  by_cases hs : 1970 ≤ dt.year ∧ dt.year ≤ 4000
  · by_cases hst : (1 ≤ dt.month ∧ dt.month ≤ 12) ∧ (1 ≤ dt.day ∧ dt.day ≤ 31) ∧
        dt.hour < 24 ∧ dt.minute < 60 ∧ dt.second < 60 ∧ dt.ms < 1000
    · have hleap := leap_check_iff dt.year dt.month dt.day hst.1.1 hst.1.2
      by_cases hld : daysInMonth dt.year dt.month < dt.day
      · have hv : validate dt = ValidationResult.Invalid := by
          unfold validate
          simp only [EPOCH_YEAR, YEAR_TABLE_LEN]
          rw [if_neg (by omega), if_neg (by omega), if_pos (hleap.mpr hld)]
        rw [hv]
        exact ⟨⟨fun h => absurd h (by decide), fun h => by omega⟩,
               ⟨fun h => absurd h (by decide), fun h => by exfalso; omega⟩,
               ⟨fun _ => ⟨hs, by omega⟩, fun _ => rfl⟩⟩
      · have hv : validate dt = ValidationResult.Valid := by
          unfold validate
          simp only [EPOCH_YEAR, YEAR_TABLE_LEN]
          rw [if_neg (by omega), if_neg (by omega),
            if_neg (fun hc => hld (hleap.mp hc))]
        rw [hv]
        exact ⟨⟨fun h => absurd h (by decide), fun h => by omega⟩,
               ⟨fun _ => by omega, fun _ => rfl⟩,
               ⟨fun h => absurd h (by decide), fun h => by exfalso; omega⟩⟩
    · have hv : validate dt = ValidationResult.Invalid := by
        unfold validate
        simp only [EPOCH_YEAR, YEAR_TABLE_LEN]
        rw [if_neg (by omega), if_pos (by omega)]
      rw [hv]
      exact ⟨⟨fun h => absurd h (by decide), fun h => by omega⟩,
             ⟨fun h => absurd h (by decide), fun h => by exfalso; omega⟩,
             ⟨fun _ => ⟨hs, by omega⟩, fun _ => rfl⟩⟩
  · have hv : validate dt = ValidationResult.OutOfScope := by
      unfold validate
      simp only [EPOCH_YEAR, YEAR_TABLE_LEN]
      rw [if_pos (by omega)]
    rw [hv]
    exact ⟨⟨fun _ => by omega, fun _ => rfl⟩,
           ⟨fun h => absurd h (by decide), fun h => by exfalso; omega⟩,
           ⟨fun h => absurd h (by decide), fun h => by exfalso; omega⟩⟩

/-- C5: `validate` classifies `OutOfScope` exactly outside the table year
range 1970..=4000, otherwise `Invalid` exactly on a static field violation
or on a day exceeding the leap-aware month length (Feb 29 accepted exactly
in leap years), otherwise `Valid`. -/
theorem claim_C5 (dt : DateTime) :
    (validate dt = ValidationResult.OutOfScope ↔ dt.year < 1970 ∨ 4000 < dt.year) ∧
    (validate dt = ValidationResult.Valid ↔
      (1970 ≤ dt.year ∧ dt.year ≤ 4000 ∧ 1 ≤ dt.month ∧ dt.month ≤ 12 ∧
       1 ≤ dt.day ∧ dt.day ≤ daysInMonth dt.year dt.month ∧
       dt.hour < 24 ∧ dt.minute < 60 ∧ dt.second < 60 ∧ dt.ms < 1000)) ∧
    (validate dt = ValidationResult.Invalid ↔
      ((1970 ≤ dt.year ∧ dt.year ≤ 4000) ∧
       (¬ (1 ≤ dt.month ∧ dt.month ≤ 12) ∨ ¬ (1 ≤ dt.day ∧ dt.day ≤ 31) ∨
        24 ≤ dt.hour ∨ 60 ≤ dt.minute ∨ 60 ≤ dt.second ∨ 1000 ≤ dt.ms ∨
        daysInMonth dt.year dt.month < dt.day))) :=
  validate_characterization dt

/-- C1: the claimed round-trip `from_unixtime (to_unixtime d) = d` for
every `Valid` `d` fails on the code: the valid instant 2000-02-01
00:00:00.000 converts to the start-of-February timestamp, which the strict
month scan of `from_unixtime` decodes as January 32nd. -/
theorem claim_C1 :
    validate ⟨2000, 2, 1, 0, 0, 0, 0⟩ = ValidationResult.Valid ∧
    from_unixtime (to_unixtime ⟨2000, 2, 1, 0, 0, 0, 0⟩) = ⟨2000, 1, 32, 0, 0, 0, 0⟩ ∧
    from_unixtime (to_unixtime ⟨2000, 2, 1, 0, 0, 0, 0⟩) ≠ ⟨2000, 2, 1, 0, 0, 0, 0⟩ :=
  ⟨by decide, by decide, by decide⟩

/-- C6: with `now` strictly before the schedule start, the next occurrence
is the gap to the start, regardless of the rules and of `end`. -/
theorem claim_C6 (now : DateTime) (schedule : Schedule)
    (h : to_unixtime now < to_unixtime schedule.start) :
    next_occurrence_ms now schedule
      = some (to_unixtime schedule.start - to_unixtime now) := by
  unfold next_occurrence_ms
  simp [h]

theorem claim_C6_witness :
    (to_unixtime ⟨2022, 3, 29, 1, 1, 29, 162⟩ < to_unixtime ⟨2022, 3, 29, 5, 1, 29, 162⟩) ∧
    next_occurrence_ms ⟨2022, 3, 29, 1, 1, 29, 162⟩
      ⟨⟨2022, 3, 29, 5, 1, 29, 162⟩, [(Frequency.Minute, 2)], none⟩
      = some (4 * 60 * 60 * 1000) :=
  ⟨by decide,
    (claim_C6 ⟨2022, 3, 29, 1, 1, 29, 162⟩
      ⟨⟨2022, 3, 29, 5, 1, 29, 162⟩, [(Frequency.Minute, 2)], none⟩ (by decide)).trans
      (by decide)⟩

/-- C9: `to_unixtime` is panic-free for a year within the table range, a
month in [1,12] and a day at least 1; a zero month, a zero day, or a year
outside the table range makes the raw conversion signal a domain error
(modelled as `none` of `to_unixtimeChecked`) rather than return a value. -/
theorem claim_C9 (dt : DateTime) :
    (1970 ≤ dt.year → dt.year ≤ 4000 → 1 ≤ dt.month → dt.month ≤ 12 → 1 ≤ dt.day →
      to_unixtimeChecked dt = some (to_unixtime dt)) ∧
    (dt.month = 0 ∨ dt.day = 0 ∨ dt.year < 1970 ∨ 4000 < dt.year →
      to_unixtimeChecked dt = none) := by
  constructor
  · intro h1 h2 h3 h4 h5
    unfold to_unixtimeChecked
    simp only [EPOCH_YEAR, YEAR_TABLE_LEN]
    rw [if_neg, if_neg, if_neg, if_neg, if_neg] <;> omega
  · intro h
    unfold to_unixtimeChecked
    simp only [EPOCH_YEAR, YEAR_TABLE_LEN]
    split_ifs <;> first | rfl | omega

theorem claim_C9_witness :
    to_unixtimeChecked ⟨2010, 10, 10, 10, 10, 10, 10⟩
        = some (to_unixtime ⟨2010, 10, 10, 10, 10, 10, 10⟩) ∧
    to_unixtimeChecked ⟨2010, 0, 10, 10, 10, 10, 10⟩ = none :=
  ⟨(claim_C9 ⟨2010, 10, 10, 10, 10, 10, 10⟩).1 (by decide) (by decide) (by decide)
      (by decide) (by decide),
    (claim_C9 ⟨2010, 0, 10, 10, 10, 10, 10⟩).2 (Or.inl rfl)⟩

/-- Normal form of `next_occurrence_ms` once `now` has reached the start. -/
lemma next_occurrence_ms_eq (now : DateTime) (s : Schedule)
    (h : ¬ to_unixtime now < to_unixtime s.start) :
    next_occurrence_ms now s =
      if (match s.stop with
          | some end_dt => decide (to_unixtime end_dt < to_unixtime now)
          | none => false) = true then none
      else
        match (s.items.map (ruleDelta s.start now (to_unixtime s.start) (to_unixtime now))).min? with
        | some trigger =>
          match s.stop with
          | none => some trigger
          | some e => if to_unixtime now + trigger ≤ to_unixtime e then some trigger else none
        | none => none := by
  unfold next_occurrence_ms
  rw [if_neg h]

/-- Single-rule schedules without an end always report the rule's delta once
`now` has reached the start. -/
lemma next_occurrence_ms_single (now st : DateTime) (r : Frequency × Nat)
    (h : to_unixtime st ≤ to_unixtime now) :
    next_occurrence_ms now ⟨st, [r], none⟩
      = some (ruleDelta st now (to_unixtime st) (to_unixtime now) r) := by
  rw [next_occurrence_ms_eq _ _ (by simp; omega)]
  simp [List.min?]

/-- Schedules without an end report the minimum of the per-rule deltas once
`now` has reached the start. -/
lemma next_occurrence_ms_nostop (now st : DateTime) (rs : List (Frequency × Nat))
    (h : to_unixtime st ≤ to_unixtime now) :
    next_occurrence_ms now ⟨st, rs, none⟩
      = (rs.map (ruleDelta st now (to_unixtime st) (to_unixtime now))).min? := by
  rw [next_occurrence_ms_eq _ _ (by simp; omega)]
  simp only [if_neg (by simp : ¬ (false = true))]
  cases (rs.map (ruleDelta st now (to_unixtime st) (to_unixtime now))).min? <;> rfl

/-- C3: once started, the query yields `none` exactly when an end is present
and cuts off the combined minimum delta (strictly: a trigger landing exactly
on the end is still reported); an empty rule list also yields `none`. -/
theorem claim_C3 (now : DateTime) (s : Schedule)
    (hns : to_unixtime s.start ≤ to_unixtime now) :
    (∀ m, (s.items.map (ruleDelta s.start now (to_unixtime s.start) (to_unixtime now))).min? = some m →
      (next_occurrence_ms now s = none ↔
        ∃ e, s.stop = some e ∧
          (to_unixtime e < to_unixtime now ∨ to_unixtime e < to_unixtime now + m))) ∧
    (s.items = [] → next_occurrence_ms now s = none) := by
  constructor
  · intro m hm
    rw [next_occurrence_ms_eq _ _ (by omega), hm]
    cases hstop : s.stop with
    | none => simp
    | some e =>
      by_cases hexp : to_unixtime e < to_unixtime now
      · simp [hexp]
      · by_cases hle : to_unixtime now + m ≤ to_unixtime e
        · have h2 : ¬ to_unixtime e < to_unixtime now + m := by omega
          simp [hexp, hle, h2]
        · have h2 : to_unixtime e < to_unixtime now + m := by omega
          simp [hexp, hle, h2]
  · intro hitems
    rw [next_occurrence_ms_eq _ _ (by omega), hitems]
    simp only [List.map_nil, List.min?_nil]
    split_ifs <;> rfl

theorem claim_C3_witness :
    next_occurrence_ms ⟨2022, 1, 25, 5, 3, 30, 0⟩
      ⟨⟨2022, 1, 25, 5, 3, 30, 0⟩, [(Frequency.Second, 3)], some ⟨2022, 1, 25, 5, 3, 32, 0⟩⟩
      = none :=
  ((claim_C3 ⟨2022, 1, 25, 5, 3, 30, 0⟩
      ⟨⟨2022, 1, 25, 5, 3, 30, 0⟩, [(Frequency.Second, 3)], some ⟨2022, 1, 25, 5, 3, 32, 0⟩⟩
      (by decide)).1 3000 (by decide)).mpr
    ⟨⟨2022, 1, 25, 5, 3, 32, 0⟩, rfl, Or.inr (by decide)⟩

/-- C4: with no end and `now` at or past the start, the reported delta is
the minimum over the individually queried single-rule schedules, rule order
is irrelevant, and the rules Hour x3 / Minute x3 / Second x3 evaluated one
second after the start yield 2000 ms. -/
theorem claim_C4 (now st : DateTime) (rs : List (Frequency × Nat))
    (h : to_unixtime st ≤ to_unixtime now) (hne : rs ≠ []) :
    (∃ d, next_occurrence_ms now ⟨st, rs, none⟩ = some d ∧
      (∃ r ∈ rs, next_occurrence_ms now ⟨st, [r], none⟩ = some d) ∧
      (∀ r ∈ rs, ∀ dr, next_occurrence_ms now ⟨st, [r], none⟩ = some dr → d ≤ dr)) ∧
    (∀ rs', rs.Perm rs' →
      next_occurrence_ms now ⟨st, rs', none⟩ = next_occurrence_ms now ⟨st, rs, none⟩) ∧
    next_occurrence_ms ⟨2022, 1, 25, 5, 3, 31, 0⟩
      ⟨⟨2022, 1, 25, 5, 3, 30, 0⟩,
        [(Frequency.Hour, 3), (Frequency.Minute, 3), (Frequency.Second, 3)], none⟩
      = some 2000 := by
  refine ⟨?_, ?_, by decide⟩
  · obtain ⟨d, hd⟩ : ∃ d,
        (rs.map (ruleDelta st now (to_unixtime st) (to_unixtime now))).min? = some d := by
      cases hmm : (rs.map (ruleDelta st now (to_unixtime st) (to_unixtime now))).min? with
      | none => exact absurd (by simpa using List.min?_eq_none_iff.mp hmm) hne
      | some d => exact ⟨d, rfl⟩
    obtain ⟨hmem, hle⟩ := List.min?_eq_some_iff'.mp hd
    obtain ⟨r, hr, hrd⟩ := List.mem_map.mp hmem
    refine ⟨d, by rw [next_occurrence_ms_nostop now st rs h, hd], ⟨r, hr, ?_⟩, ?_⟩
    · rw [next_occurrence_ms_single now st r h, hrd]
    · intro r' hr' dr hdr
      rw [next_occurrence_ms_single now st r' h] at hdr
      exact (Option.some_inj.mp hdr) ▸ hle _ (List.mem_map.mpr ⟨r', hr', rfl⟩)
  · intro rs' hperm
    rw [next_occurrence_ms_nostop now st rs h, next_occurrence_ms_nostop now st rs' h]
    cases hmm : (rs.map (ruleDelta st now (to_unixtime st) (to_unixtime now))).min? with
    | none =>
      exact absurd (by simpa using List.min?_eq_none_iff.mp hmm) hne
    | some d =>
      obtain ⟨hmem, hle⟩ := List.min?_eq_some_iff'.mp hmm
      have hperm' := (hperm.map (ruleDelta st now (to_unixtime st) (to_unixtime now)))
      rw [List.min?_eq_some_iff']
      exact ⟨hperm'.mem_iff.mp hmem, fun b hb => hle b (hperm'.mem_iff.mpr hb)⟩

theorem claim_C4_witness :
    next_occurrence_ms ⟨2022, 1, 25, 5, 3, 31, 0⟩
      ⟨⟨2022, 1, 25, 5, 3, 30, 0⟩,
        [(Frequency.Hour, 3), (Frequency.Minute, 3), (Frequency.Second, 3)], none⟩
      = some 2000 :=
  (claim_C4 ⟨2022, 1, 25, 5, 3, 31, 0⟩ ⟨2022, 1, 25, 5, 3, 30, 0⟩
    [(Frequency.Hour, 3), (Frequency.Minute, 3), (Frequency.Second, 3)]
    (by decide) (by decide)).2.2

lemma yearLenMs_pos (y : Nat) : 0 < yearLenMs y := by
  simp only [yearLenMs, MS_IN_DAY]
  split_ifs <;> omega

lemma year_ms_offsets_lt_succ (n : Nat) :
    year_ms_offsets n < year_ms_offsets (n + 1) := by
  have := yearLenMs_pos (EPOCH_YEAR + n)
  simp only [year_ms_offsets]
  omega

lemma year_ms_offsets_strictMono : StrictMono year_ms_offsets :=
  strictMono_nat_of_lt_succ year_ms_offsets_lt_succ

lemma year_ms_offsets_succ (n : Nat) :
    year_ms_offsets (n + 1) = year_ms_offsets n + yearLenMs (EPOCH_YEAR + n) := rfl

lemma yearScanUp_spec (ts : Nat) :
    ∀ fuel y, year_ms_offsets y < ts → ts ≤ year_ms_offsets (y + fuel) →
      year_ms_offsets (yearScanUp ts y fuel) < ts ∧
      ts ≤ year_ms_offsets (yearScanUp ts y fuel + 1) := by
  intro fuel
  induction fuel with
  | zero =>
    intro y h1 h2
    rw [Nat.add_zero] at h2
    omega
  | succ fuel ih =>
    intro y h1 h2
    unfold yearScanUp
    split
    · rename_i hlt
      refine ih (y + 1) hlt ?_
      rw [show y + 1 + fuel = y + (fuel + 1) by omega]
      exact h2
    · rename_i hnlt
      exact ⟨h1, by omega⟩

lemma yearScanDown_spec (ts : Nat) :
    ∀ y, ts ≤ year_ms_offsets (y + 1) →
      year_ms_offsets (yearScanDown ts y) ≤ ts ∧
      ts ≤ year_ms_offsets (yearScanDown ts y + 1) := by
  intro y
  induction y with
  | zero =>
    intro h
    unfold yearScanDown
    exact ⟨by rw [show year_ms_offsets 0 = 0 from rfl]; omega, h⟩
  | succ y ih =>
    intro h
    unfold yearScanDown
    split
    · rename_i hlt
      exact ih (Nat.le_of_lt hlt)
    · rename_i hnlt
      exact ⟨by omega, h⟩

lemma yearScanDown_le (ts : Nat) : ∀ y, yearScanDown ts y ≤ y := by
  intro y
  induction y with
  | zero => simp [yearScanDown]
  | succ y ih =>
    unfold yearScanDown
    split
    · omega
    · omega

lemma findYear_spec (ts : Nat) (h : ts ≤ year_ms_offsets 2030) :
    year_ms_offsets (findYear ts) ≤ ts ∧
    ts ≤ year_ms_offsets (findYear ts + 1) ∧ findYear ts ≤ 2029 := by
  unfold findYear
  simp only [CURRENT_YEAR, EPOCH_YEAR, YEAR_TABLE_LEN]
  norm_num
  split
  · rename_i hgt
    have hup := yearScanUp_spec ts 2031 52 hgt
      (le_trans h (year_ms_offsets_strictMono.monotone (by omega)))
    refine ⟨le_of_lt hup.1, hup.2, ?_⟩
    have : year_ms_offsets (yearScanUp ts 52 2031) < year_ms_offsets 2030 :=
      lt_of_lt_of_le hup.1 h
    have := year_ms_offsets_strictMono.lt_iff_lt.mp this
    omega
  · rename_i hle
    have h52 : ts ≤ year_ms_offsets (51 + 1) := by
      norm_num
      omega
    have hdown := yearScanDown_spec ts 51 h52
    have hdle := yearScanDown_le ts 51
    exact ⟨hdown.1, by simpa using hdown.2, by omega⟩

lemma monthOffsets_zero (y : Nat) : (monthOffsets y).getD 0 0 = 0 := by
  unfold monthOffsets
  split_ifs <;> decide

lemma monthOffsets_last (y : Nat) : (monthOffsets y).getD 12 0 = yearLenMs y := by
  unfold monthOffsets yearLenMs
  split_ifs <;> decide

lemma monthOffsets_span (y : Nat) :
    ∀ m, 1 ≤ m → m ≤ 12 →
      (monthOffsets y).getD m 0 ≤ (monthOffsets y).getD (m - 1) 0 + 31 * MS_IN_DAY := by
  unfold monthOffsets
  split_ifs <;> (intro m h1 h2; interval_cases m <;> decide)

lemma monthScan_go (mo : List Nat) (yo : Nat) :
    ∀ fuel k m, k ≤ fuel → 1 ≤ m → yo ≤ mo.getD (m - 1 + k) 0 →
      1 ≤ monthScan mo yo m (fuel + 1) ∧ m ≤ monthScan mo yo m (fuel + 1) ∧
      monthScan mo yo m (fuel + 1) ≤ m + k ∧
      yo ≤ mo.getD (monthScan mo yo m (fuel + 1) - 1) 0 ∧
      (monthScan mo yo m (fuel + 1) = m ∨
        mo.getD (monthScan mo yo m (fuel + 1) - 1 - 1) 0 < yo) := by
  intro fuel
  induction fuel with
  | zero =>
    intro k m hk h1 hyo
    have hk0 : k = 0 := by omega
    subst hk0
    rw [Nat.add_zero] at hyo
    unfold monthScan
    rw [if_neg (by omega)]
    exact ⟨h1, Nat.le_refl m, by omega, hyo, Or.inl rfl⟩
  | succ fuel ih =>
    intro k m hk h1 hyo
    unfold monthScan
    by_cases hlt : mo.getD (m - 1) 0 < yo
    · rw [if_pos hlt]
      have hk' : k ≠ 0 := by
        intro h0
        subst h0
        rw [Nat.add_zero] at hyo
        omega
      obtain ⟨k', rfl⟩ : ∃ k', k = k' + 1 := ⟨k - 1, by omega⟩
      have hidx : m + 1 - 1 + k' = m - 1 + (k' + 1) := by omega
      have := ih k' (m + 1) (by omega) (by omega) (by rw [hidx]; exact hyo)
      obtain ⟨a, b, c, d, e⟩ := this
      refine ⟨by omega, by omega, by omega, d, Or.inr ?_⟩
      rcases e with he | he
      · rw [he, show m + 1 - 1 - 1 = m - 1 by omega]
        exact hlt
      · exact he
    · rw [if_neg hlt]
      exact ⟨h1, Nat.le_refl m, by omega, by omega, Or.inl rfl⟩

lemma findMonth_spec (mo : List Nat) (yo : Nat) (h0 : 0 < yo)
    (h12 : yo ≤ mo.getD 12 0) (hzero : mo.getD 0 0 = 0) :
    1 ≤ findMonth mo yo ∧ findMonth mo yo ≤ 12 ∧
    mo.getD (findMonth mo yo - 1) 0 < yo ∧ yo ≤ mo.getD (findMonth mo yo) 0 := by
  unfold findMonth
  rw [if_pos h0]
  have hgo := monthScan_go mo yo 13 12 1 (by omega) (by omega) (by simpa using h12)
  rw [show (13 : Nat) + 1 = 14 from rfl] at hgo
  obtain ⟨a, b, c, d, e⟩ := hgo
  have hne1 : monthScan mo yo 1 14 ≠ 1 := by
    intro h1
    rw [h1, show (1 : Nat) - 1 = 0 from rfl, hzero] at d
    omega
  rcases e with he | he
  · exact absurd he hne1
  · exact ⟨by omega, by omega, he, d⟩

/-- C2 (amended): for every timestamp within the table range, the
decomposition re-encodes to the same timestamp. (The "canonical" part of
the claim fails: see the counterexample.) -/
theorem claim_C2 (ts : Nat) (h : ts ≤ year_ms_offsets 2030) :
    to_unixtime (from_unixtime ts) = ts := by
  obtain ⟨h1, h2, h3⟩ := findYear_spec ts h
  rw [year_ms_offsets_succ] at h2
  simp only [from_unixtime]
  set y := findYear ts with hy
  set yo := ts - year_ms_offsets y with hyo
  set mo := monthOffsets (y + EPOCH_YEAR) with hmo
  have hlast : mo.getD 12 0 = yearLenMs (EPOCH_YEAR + y) := by
    rw [hmo, monthOffsets_last, Nat.add_comm]
  have hzero : mo.getD 0 0 = 0 := monthOffsets_zero _
  have hyole : yo ≤ mo.getD 12 0 := by
    rw [hlast]
    omega
  by_cases hpos : 0 < yo
  · obtain ⟨hm1, hm2, hm3, hm4⟩ := findMonth_spec mo yo hpos hyole hzero
    set m := findMonth mo yo with hm
    set dayo := yo - mo.getD (m - 1) 0 with hdayo
    have hspan := monthOffsets_span (y + EPOCH_YEAR) m hm1 hm2
    rw [← hmo] at hspan
    have hdayo31 : dayo ≤ 31 * MS_IN_DAY := by omega
    have hyear_lt : y + EPOCH_YEAR < 65536 := by
      simp only [EPOCH_YEAR]
      omega
    have hmod_year : (y + EPOCH_YEAR) % 65536 = y + EPOCH_YEAR :=
      Nat.mod_eq_of_lt hyear_lt
    have hmod_month : m % 256 = m := Nat.mod_eq_of_lt (by omega)
    have hday_lt : dayo / MS_IN_DAY + 1 < 256 := by
      simp only [MS_IN_DAY] at hdayo31 ⊢
      omega
    have hhour_lt : dayo % MS_IN_DAY / MS_IN_HOUR < 256 := by
      simp only [MS_IN_DAY, MS_IN_HOUR]
      omega
    have hmin_lt : dayo % MS_IN_HOUR / MS_IN_MIN < 256 := by
      simp only [MS_IN_HOUR, MS_IN_MIN]
      omega
    have hsec_lt : dayo % MS_IN_MIN / MS_IN_SEC < 256 := by
      simp only [MS_IN_MIN, MS_IN_SEC]
      omega
    have hms_lt : dayo % MS_IN_SEC < 65536 := by
      simp only [MS_IN_SEC]
      omega
    simp only [to_unixtime, hmod_year, hmod_month,
      Nat.mod_eq_of_lt hday_lt, Nat.mod_eq_of_lt hhour_lt,
      Nat.mod_eq_of_lt hmin_lt, Nat.mod_eq_of_lt hsec_lt,
      Nat.mod_eq_of_lt hms_lt]
    rw [show y + EPOCH_YEAR - EPOCH_YEAR = y by omega, ← hmo]
    rw [Nat.add_sub_cancel]
    simp only [MS_IN_DAY, MS_IN_HOUR, MS_IN_MIN, MS_IN_SEC] at hdayo ⊢
    omega
  · have hyo0 : yo = 0 := by omega
    have hts : ts = year_ms_offsets y := by omega
    simp only [findMonth, if_neg hpos]
    have hyear_lt : y + EPOCH_YEAR < 65536 := by
      simp only [EPOCH_YEAR]
      omega
    simp only [hyo0, Nat.zero_sub, Nat.zero_div, Nat.zero_mod, Nat.zero_add,
      to_unixtime, Nat.mod_eq_of_lt hyear_lt]
    rw [show y + EPOCH_YEAR - EPOCH_YEAR = y by omega, ← hmo]
    simp [hts, MS_IN_DAY, MS_IN_HOUR, MS_IN_MIN, MS_IN_SEC]
    rw [← List.getD_eq_getElem?_getD]
    exact hzero

/-- C2 counterexample: the in-range timestamp for 2022-01-01T00:00:00.000
decomposes to 2021-12-32T00:00:00.000, which is not a canonical (valid)
date/time, refuting the "decomposes to exactly one canonical DateTime"
part of the claim. -/
theorem claim_C2_counterexample :
    from_unixtime (to_unixtime ⟨2022, 1, 1, 0, 0, 0, 0⟩) = ⟨2021, 12, 32, 0, 0, 0, 0⟩ ∧
    validate ⟨2021, 12, 32, 0, 0, 0, 0⟩ = ValidationResult.Invalid :=
  ⟨by decide, by decide⟩

theorem claim_C2_witness :
    to_unixtime (from_unixtime 1650863010000) = 1650863010000 :=
  claim_C2 1650863010000
    (le_trans (by decide : (1650863010000 : Nat) ≤ year_ms_offsets 53)
      (year_ms_offsets_strictMono.monotone (by omega)))

lemma monthOffsets_mono (y : Nat) :
    ∀ i, i < 13 → ∀ j, j < 13 → i ≤ j →
      (monthOffsets y).getD i 0 ≤ (monthOffsets y).getD j 0 := by
  unfold monthOffsets
  split_ifs <;> decide

lemma monthOffsets_step (y m : Nat) (h1 : 1 ≤ m) (h2 : m ≤ 12) :
    (monthOffsets y).getD m 0
      = (monthOffsets y).getD (m - 1) 0 + daysInMonth y m * MS_IN_DAY := by
  unfold monthOffsets
  cases hly : isLeapYear y <;> simp only [hly, Bool.false_eq_true, if_false, if_true] <;>
    interval_cases m <;> (simp [daysInMonth, hly]; try decide)

/-- Unfolded form of `to_unixtime`. -/
lemma to_unixtime_eq (dt : DateTime) :
    to_unixtime dt
      = year_ms_offsets (dt.year - EPOCH_YEAR) + (monthOffsets dt.year).getD (dt.month - 1) 0
        + (dt.day - 1) * MS_IN_DAY + dt.hour * MS_IN_HOUR + dt.minute * MS_IN_MIN
        + dt.second * MS_IN_SEC + dt.ms := rfl

/-- A valid date/time's timestamp stays strictly below the next year's
offset. -/
lemma to_unixtime_lt_year_end (dt : DateTime) (hv : validate dt = ValidationResult.Valid) :
    to_unixtime dt < year_ms_offsets (dt.year - EPOCH_YEAR + 1) := by
  obtain ⟨hy1, hy2, hm1, hm2, hd1, hd2, hh, hmin, hs, hms⟩ :=
    (validate_characterization dt).2.1.mp hv
  have hstep := monthOffsets_step dt.year dt.month hm1 hm2
  have hmono := monthOffsets_mono dt.year dt.month (by omega) 12 (by omega) (by omega)
  have hlast := monthOffsets_last dt.year
  rw [year_ms_offsets_succ, show EPOCH_YEAR + (dt.year - EPOCH_YEAR) = dt.year by
    simp only [EPOCH_YEAR]; omega, ← hlast, to_unixtime_eq]
  simp only [MS_IN_DAY, MS_IN_HOUR, MS_IN_MIN, MS_IN_SEC] at hstep ⊢
  omega

/-- Lexicographic strict order on the fields
(year, month, day, hour, minute, second, ms), matching the derived Rust
`PartialOrd`/`Ord` on `DateTime`. -/
def DateTime.lexLt (a b : DateTime) : Prop :=
  a.year < b.year ∨ (a.year = b.year ∧
    (a.month < b.month ∨ (a.month = b.month ∧
      (a.day < b.day ∨ (a.day = b.day ∧
        (a.hour < b.hour ∨ (a.hour = b.hour ∧
          (a.minute < b.minute ∨ (a.minute = b.minute ∧
            (a.second < b.second ∨ (a.second = b.second ∧
              a.ms < b.ms)))))))))))

/-- C8: `to_unixtime` is strictly monotone on valid date/times ordered by
the lexicographic field order. -/
theorem claim_C8 (a b : DateTime) (ha : validate a = ValidationResult.Valid)
    (hb : validate b = ValidationResult.Valid) (hab : a.lexLt b) :
    to_unixtime a < to_unixtime b := by
  obtain ⟨ha1, ha2, ham1, ham2, had1, had2, hah, hamin, has, hams⟩ :=
    (validate_characterization a).2.1.mp ha
  obtain ⟨hb1, hb2, hbm1, hbm2, hbd1, hbd2, hbh, hbmin, hbs, hbms⟩ :=
    (validate_characterization b).2.1.mp hb
  rcases hab with hy | ⟨hy, hrest⟩
  · have hua := to_unixtime_lt_year_end a ha
    have h1 : a.year - EPOCH_YEAR + 1 ≤ b.year - EPOCH_YEAR := by
      simp only [EPOCH_YEAR]
      omega
    have h2 := year_ms_offsets_strictMono.monotone h1
    have h3 : year_ms_offsets (b.year - EPOCH_YEAR) ≤ to_unixtime b := by
      rw [to_unixtime_eq]
      omega
    omega
  · rcases hrest with hm | ⟨hm, hrest2⟩
    · have hstep := monthOffsets_step a.year a.month ham1 ham2
      have hmono := monthOffsets_mono a.year a.month (by omega) (b.month - 1)
        (by omega) (by omega)
      rw [to_unixtime_eq, to_unixtime_eq, ← hy]
      simp only [MS_IN_DAY, MS_IN_HOUR, MS_IN_MIN, MS_IN_SEC] at hstep ⊢
      omega
    · rw [to_unixtime_eq, to_unixtime_eq, ← hy, ← hm]
      simp only [MS_IN_DAY, MS_IN_HOUR, MS_IN_MIN, MS_IN_SEC]
      omega

theorem claim_C8_witness :
    to_unixtime ⟨2020, 2, 29, 23, 59, 59, 999⟩ < to_unixtime ⟨2020, 3, 1, 0, 0, 0, 0⟩ :=
  claim_C8 ⟨2020, 2, 29, 23, 59, 59, 999⟩ ⟨2020, 3, 1, 0, 0, 0, 0⟩
    (by decide) (by decide) (by unfold DateTime.lexLt; decide)

lemma monthOffsets_strict (y : Nat) :
    ∀ i, i < 12 → (monthOffsets y).getD i 0 < (monthOffsets y).getD (i + 1) 0 := by
  unfold monthOffsets
  split_ifs <;> decide

/-- Start-of-month timestamp for the absolute month index `k` (months since
1970-01). -/
def som (k : Nat) : Nat :=
  year_ms_offsets (k / 12) + (monthOffsets (EPOCH_YEAR + k / 12)).getD (k % 12) 0

lemma som_succ_eq (k : Nat) :
    som (k + 1) = som k + daysInMonth (EPOCH_YEAR + k / 12) (k % 12 + 1) * MS_IN_DAY := by
  unfold som
  have h1 : 12 * (k / 12) + k % 12 = k := Nat.div_add_mod k 12
  have h2 : k % 12 < 12 := Nat.mod_lt _ (by omega)
  by_cases hr : k % 12 = 11
  · have hq1 : (k + 1) / 12 = k / 12 + 1 := by omega
    have hr1 : (k + 1) % 12 = 0 := by omega
    rw [hq1, hr1, year_ms_offsets_succ, monthOffsets_zero, hr]
    have hlast := monthOffsets_last (EPOCH_YEAR + k / 12)
    have hstep := monthOffsets_step (EPOCH_YEAR + k / 12) 12 (by omega) (by omega)
    rw [show (12 : Nat) - 1 = 11 from rfl] at hstep
    rw [show (11 : Nat) + 1 = 12 from rfl]
    omega
  · have hq1 : (k + 1) / 12 = k / 12 := by omega
    have hr1 : (k + 1) % 12 = k % 12 + 1 := by omega
    rw [hq1, hr1]
    have hstep := monthOffsets_step (EPOCH_YEAR + k / 12) (k % 12 + 1) (by omega) (by omega)
    rw [Nat.add_sub_cancel] at hstep
    omega

lemma som_lt_succ (k : Nat) : som k < som (k + 1) := by
  rw [som_succ_eq]
  have h2 : k % 12 < 12 := Nat.mod_lt _ (by omega)
  have := daysInMonth_pos (EPOCH_YEAR + k / 12) (k % 12 + 1) (by omega) (by omega)
  have h3 : 0 < daysInMonth (EPOCH_YEAR + k / 12) (k % 12 + 1) * MS_IN_DAY := by
    simp only [MS_IN_DAY]
    omega
  omega

lemma som_strictMono : StrictMono som :=
  strictMono_nat_of_lt_succ som_lt_succ

/-- Timestamp of a date/time with an in-range year and month, split as
start-of-month plus the time from `to_day_unixtime`. -/
lemma to_unixtime_som (dt : DateTime) (hy : EPOCH_YEAR ≤ dt.year)
    (hm1 : 1 ≤ dt.month) (hm2 : dt.month ≤ 12) :
    to_unixtime dt
      = som ((dt.year - EPOCH_YEAR) * 12 + (dt.month - 1)) + dt.to_day_unixtime := by
  unfold som DateTime.to_day_unixtime
  rw [to_unixtime_eq]
  simp only [EPOCH_YEAR] at hy ⊢
  have hq : ((dt.year - 1970) * 12 + (dt.month - 1)) / 12 = dt.year - 1970 := by
    omega
  have hr : ((dt.year - 1970) * 12 + (dt.month - 1)) % 12 = dt.month - 1 := by
    omega
  rw [hq, hr, show 1970 + (dt.year - 1970) = dt.year by omega]
  simp only [MS_IN_DAY, MS_IN_HOUR, MS_IN_MIN, MS_IN_SEC]
  omega

/-- A valid date/time's timestamp stays strictly below the next month
start. -/
lemma to_unixtime_lt_som_succ (dt : DateTime)
    (hv : validate dt = ValidationResult.Valid) :
    to_unixtime dt < som ((dt.year - EPOCH_YEAR) * 12 + (dt.month - 1) + 1) := by
  obtain ⟨hy1, hy2, hm1, hm2, hd1, hd2, hh, hmin, hs, hms⟩ :=
    (validate_characterization dt).2.1.mp hv
  have hy1' : EPOCH_YEAR ≤ dt.year := by simp only [EPOCH_YEAR]; omega
  rw [to_unixtime_som dt hy1' hm1 hm2, som_succ_eq]
  simp only [EPOCH_YEAR]
  have hq : ((dt.year - 1970) * 12 + (dt.month - 1)) / 12 = dt.year - 1970 := by
    omega
  have hr : ((dt.year - 1970) * 12 + (dt.month - 1)) % 12 = dt.month - 1 := by
    omega
  rw [hq, hr, show 1970 + (dt.year - 1970) = dt.year by omega,
    show dt.month - 1 + 1 = dt.month by omega]
  unfold DateTime.to_day_unixtime
  simp only [MS_IN_DAY, MS_IN_HOUR, MS_IN_MIN, MS_IN_SEC]
  omega

lemma le_ceil_div_mul (x y : Nat) (hy : 1 ≤ y) : x ≤ ceil_div x y * y := by
  unfold ceil_div
  have h1 := Nat.div_add_mod x y
  by_cases h : x % y = 0
  · simp [h]
    have h2 : x / y * y = y * (x / y) := Nat.mul_comm _ _
    omega
  · simp [h]
    have h2 : (x / y + 1) * y = y * (x / y) + y := by ring
    have h3 : x % y < y := Nat.mod_lt _ (by omega)
    omega

/-- Under valid inputs, timestamp order forces absolute-month order. -/
lemma idx_le_of_ts_le (start now : DateTime)
    (hvs : validate start = ValidationResult.Valid)
    (hvn : validate now = ValidationResult.Valid)
    (hts : to_unixtime start ≤ to_unixtime now) :
    (start.year - EPOCH_YEAR) * 12 + (start.month - 1)
      ≤ (now.year - EPOCH_YEAR) * 12 + (now.month - 1) := by
  obtain ⟨hsy1, hsy2, hsm1, hsm2, _, _, _, _, _, _⟩ :=
    (validate_characterization start).2.1.mp hvs
  obtain ⟨hny1, hny2, hnm1, hnm2, _, _, _, _, _, _⟩ :=
    (validate_characterization now).2.1.mp hvn
  by_contra hcon
  push_neg at hcon
  have h1 := to_unixtime_lt_som_succ now hvn
  have h2 := to_unixtime_som start (by simp only [EPOCH_YEAR]; omega) hsm1 hsm2
  have h3 := som_strictMono.monotone (show (now.year - EPOCH_YEAR) * 12 + (now.month - 1) + 1
    ≤ (start.year - EPOCH_YEAR) * 12 + (start.month - 1) by omega)
  omega

/-- The Year rule's candidate lies strictly after `now` whenever the inputs
are valid, `now` has reached the start, the multiplier is at least 1, and
neither the `u32` product nor the `u16` year cast truncates. -/
lemma yearCandidate_gt (start now : DateTime) (mult : Nat)
    (hvs : validate start = ValidationResult.Valid)
    (hvn : validate now = ValidationResult.Valid)
    (hts : to_unixtime start ≤ to_unixtime now)
    (hmult : 1 ≤ mult)
    (hw1 : ceil_div (u32cast (y_deltaInt start now)) mult * mult < 4294967296)
    (hw2 : start.year + ceil_div (u32cast (y_deltaInt start now)) mult * mult < 65536) :
    to_unixtime now < to_unixtime (yearCandidate start now mult) := by
  obtain ⟨hsy1, hsy2, hsm1, hsm2, hsd1, hsd2, hsh, hsmin, hss, hsms⟩ :=
    (validate_characterization start).2.1.mp hvs
  obtain ⟨hny1, hny2, hnm1, hnm2, hnd1, hnd2, hnh, hnmin, hns, hnms⟩ :=
    (validate_characterization now).2.1.mp hvn
  have hIdx := idx_le_of_ts_le start now hvs hvn hts
  have hsyny : start.year ≤ now.year := by
    simp only [EPOCH_YEAR] at hIdx
    omega
  have hDlb : 0 ≤ y_deltaInt start now := by
    unfold y_deltaInt m_deltaInt
    split_ifs <;> omega
  have hDub : y_deltaInt start now < 4294967296 := by
    unfold y_deltaInt m_deltaInt
    split_ifs <;> omega
  have hcast : u32cast (y_deltaInt start now) = (y_deltaInt start now).toNat := by
    unfold u32cast
    rw [Int.emod_eq_of_lt hDlb hDub]
  rw [hcast] at hw1 hw2
  have hDT := le_ceil_div_mul (y_deltaInt start now).toNat mult hmult
  have hcand : yearCandidate start now mult =
      ⟨start.year + ceil_div (y_deltaInt start now).toNat mult * mult,
        start.month, start.day, start.hour, start.minute, start.second, start.ms⟩ := by
    unfold yearCandidate total_y_from_start
    rw [hcast, Nat.mod_eq_of_lt hw1,
      Nat.mod_eq_of_lt
        (show ceil_div (y_deltaInt start now).toNat mult * mult < 65536 by omega),
      Nat.mod_eq_of_lt hw2]
  rw [hcand]
  set T := ceil_div (y_deltaInt start now).toNat mult * mult with hT
  have hcy : EPOCH_YEAR ≤ start.year + T := by
    simp only [EPOCH_YEAR]
    omega
  rw [to_unixtime_som ⟨start.year + T, start.month, start.day, start.hour,
      start.minute, start.second, start.ms⟩ hcy hsm1 hsm2]
  have htod : DateTime.to_day_unixtime ⟨start.year + T, start.month, start.day,
      start.hour, start.minute, start.second, start.ms⟩ = start.to_day_unixtime := rfl
  rw [htod]
  dsimp only
  have hnow := to_unixtime_som now (by simp only [EPOCH_YEAR]; omega) hnm1 hnm2
  have hnowlt := to_unixtime_lt_som_succ now hvn
  by_cases hind : start.to_day_unixtime ≤ now.to_day_unixtime
  · -- exact-or-passed time of year: the candidate lands at least one month
    -- past now's month
    have hmdval : m_deltaInt start now = (now.month : Int) - start.month + 1 := by
      unfold m_deltaInt
      rw [if_pos hind]
    have hkey : (now.year - EPOCH_YEAR) * 12 + (now.month - 1) + 1
        ≤ ((start.year + T) - EPOCH_YEAR) * 12 + (start.month - 1) := by
      by_cases hmd : (0 : Int) < m_deltaInt start now
      · have hDval : y_deltaInt start now = (now.year : Int) - start.year + 1 := by
          unfold y_deltaInt
          rw [if_pos hmd]
        simp only [EPOCH_YEAR] at *
        omega
      · have hDval : y_deltaInt start now = (now.year : Int) - start.year := by
          unfold y_deltaInt
          rw [if_neg hmd]
          ring
        simp only [EPOCH_YEAR] at *
        omega
    have hmono := som_strictMono.monotone hkey
    omega
  · -- time of year not yet reached: the candidate shares or passes now's
    -- month and keeps the strictly larger time of month
    have hk2 : now.to_day_unixtime < start.to_day_unixtime := by omega
    have hmdval : m_deltaInt start now = (now.month : Int) - start.month := by
      unfold m_deltaInt
      rw [if_neg hind]
      ring
    have hkey : (now.year - EPOCH_YEAR) * 12 + (now.month - 1)
        ≤ ((start.year + T) - EPOCH_YEAR) * 12 + (start.month - 1) := by
      by_cases hmd : (0 : Int) < m_deltaInt start now
      · have hDval : y_deltaInt start now = (now.year : Int) - start.year + 1 := by
          unfold y_deltaInt
          rw [if_pos hmd]
        simp only [EPOCH_YEAR] at *
        omega
      · have hDval : y_deltaInt start now = (now.year : Int) - start.year := by
          unfold y_deltaInt
          rw [if_neg hmd]
          ring
        simp only [EPOCH_YEAR] at *
        omega
    have hmono := som_strictMono.monotone hkey
    omega

/-- The Month rule's candidate lies strictly after `now` under the same
side conditions. -/
lemma monthCandidate_gt (start now : DateTime) (mult : Nat)
    (hvs : validate start = ValidationResult.Valid)
    (hvn : validate now = ValidationResult.Valid)
    (hts : to_unixtime start ≤ to_unixtime now)
    (hmult : 1 ≤ mult)
    (hw1 : ceil_div (u32cast (total_m_deltaInt start now)) mult * mult < 4294967296)
    (hw2 : start.year
      + (start.month + ceil_div (u32cast (total_m_deltaInt start now)) mult * mult - 1) / 12
      < 65536) :
    to_unixtime now < to_unixtime (monthCandidate start now mult) := by
  obtain ⟨hsy1, hsy2, hsm1, hsm2, hsd1, hsd2, hsh, hsmin, hss, hsms⟩ :=
    (validate_characterization start).2.1.mp hvs
  obtain ⟨hny1, hny2, hnm1, hnm2, hnd1, hnd2, hnh, hnmin, hns, hnms⟩ :=
    (validate_characterization now).2.1.mp hvn
  have hIdx := idx_le_of_ts_le start now hvs hvn hts
  have hDlb : 0 ≤ total_m_deltaInt start now := by
    unfold total_m_deltaInt m_deltaInt
    simp only [EPOCH_YEAR] at hIdx
    split_ifs <;> omega
  have hDub : total_m_deltaInt start now < 4294967296 := by
    unfold total_m_deltaInt m_deltaInt
    split_ifs <;> omega
  have hcast : u32cast (total_m_deltaInt start now) = (total_m_deltaInt start now).toNat := by
    unfold u32cast
    rw [Int.emod_eq_of_lt hDlb hDub]
  rw [hcast] at hw1 hw2
  have hDT := le_ceil_div_mul (total_m_deltaInt start now).toNat mult hmult
  set T := ceil_div (total_m_deltaInt start now).toNat mult * mult with hT
  have hquot : (start.month + T - 1) / 12 < 65536 := by omega
  have hcand : monthCandidate start now mult =
      ⟨start.year + (start.month + T - 1) / 12, (start.month + T - 1) % 12 + 1,
        start.day, start.hour, start.minute, start.second, start.ms⟩ := by
    unfold monthCandidate total_m_from_start
    rw [hcast, ← hT, Nat.mod_eq_of_lt hw1, Nat.mod_eq_of_lt hquot,
      Nat.mod_eq_of_lt hw2]
  rw [hcand]
  have hcm1 : 1 ≤ (start.month + T - 1) % 12 + 1 := by omega
  have hcm2 : (start.month + T - 1) % 12 + 1 ≤ 12 := by omega
  have hcy : EPOCH_YEAR ≤ start.year + (start.month + T - 1) / 12 := by
    simp only [EPOCH_YEAR]
    omega
  rw [to_unixtime_som ⟨start.year + (start.month + T - 1) / 12,
      (start.month + T - 1) % 12 + 1, start.day, start.hour, start.minute,
      start.second, start.ms⟩ hcy hcm1 hcm2]
  have htod : DateTime.to_day_unixtime ⟨start.year + (start.month + T - 1) / 12,
      (start.month + T - 1) % 12 + 1, start.day, start.hour, start.minute,
      start.second, start.ms⟩ = start.to_day_unixtime := rfl
  rw [htod]
  dsimp only
  have hnow := to_unixtime_som now (by simp only [EPOCH_YEAR]; omega) hnm1 hnm2
  have hnowlt := to_unixtime_lt_som_succ now hvn
  unfold total_m_deltaInt m_deltaInt at hDT
  by_cases hind : start.to_day_unixtime ≤ now.to_day_unixtime
  · rw [if_pos hind] at hDT
    have hkey : (now.year - EPOCH_YEAR) * 12 + (now.month - 1) + 1
        ≤ ((start.year + (start.month + T - 1) / 12) - EPOCH_YEAR) * 12
          + ((start.month + T - 1) % 12 + 1 - 1) := by
      simp only [EPOCH_YEAR] at *
      omega
    have hmono := som_strictMono.monotone hkey
    omega
  · rw [if_neg hind] at hDT
    have hk2 : now.to_day_unixtime < start.to_day_unixtime := by omega
    have hkey : (now.year - EPOCH_YEAR) * 12 + (now.month - 1)
        ≤ ((start.year + (start.month + T - 1) / 12) - EPOCH_YEAR) * 12
          + ((start.month + T - 1) % 12 + 1 - 1) := by
      simp only [EPOCH_YEAR] at *
      omega
    have hmono := som_strictMono.monotone hkey
    omega

/-- Side condition for the C10 positivity claim: the Year/Month candidate
construction must not truncate in the wrapping `u32` product or the `u16`
year cast (a huge multiplier can wrap the candidate year back onto `now`,
see the counterexample). -/
def ruleNoTrunc (start now : DateTime) : Frequency × Nat → Prop
  | (Frequency.Year, mult) =>
    ceil_div (u32cast (y_deltaInt start now)) mult * mult < 4294967296 ∧
    start.year + ceil_div (u32cast (y_deltaInt start now)) mult * mult < 65536
  | (Frequency.Month, mult) =>
    ceil_div (u32cast (total_m_deltaInt start now)) mult * mult < 4294967296 ∧
    start.year
      + (start.month + ceil_div (u32cast (total_m_deltaInt start now)) mult * mult - 1) / 12
      < 65536
  | _ => True

/-- Every per-rule delta is strictly positive under valid inputs, a started
schedule, positive multipliers, and no cast truncation. -/
lemma ruleDelta_pos (start now : DateTime) (r : Frequency × Nat)
    (hvs : validate start = ValidationResult.Valid)
    (hvn : validate now = ValidationResult.Valid)
    (hts : to_unixtime start ≤ to_unixtime now)
    (hmult : 1 ≤ r.2) (hnt : ruleNoTrunc start now r) :
    0 < ruleDelta start now (to_unixtime start) (to_unixtime now) r := by
  obtain ⟨f, mult⟩ := r
  cases f with
  | Year =>
    obtain ⟨hw1, hw2⟩ := hnt
    have := yearCandidate_gt start now mult hvs hvn hts hmult hw1 hw2
    simp only [ruleDelta]
    omega
  | Month =>
    obtain ⟨hw1, hw2⟩ := hnt
    have := monthCandidate_gt start now mult hvs hvn hts hmult hw1 hw2
    simp only [ruleDelta]
    omega
  | Week =>
    simp only [ruleDelta]
    have hv : 1 ≤ Frequency.val Frequency.Week * mult := by
      simp only [Frequency.val, MS_IN_DAY]
      omega
    have hm := Nat.mod_lt (to_unixtime now - to_unixtime start)
      (show 0 < Frequency.val Frequency.Week * mult by omega)
    split_ifs <;> omega
  | Day =>
    simp only [ruleDelta]
    have hv : 1 ≤ Frequency.val Frequency.Day * mult := by
      simp only [Frequency.val, MS_IN_DAY]
      omega
    have hm := Nat.mod_lt (to_unixtime now - to_unixtime start)
      (show 0 < Frequency.val Frequency.Day * mult by omega)
    split_ifs <;> omega
  | Hour =>
    simp only [ruleDelta]
    have hv : 1 ≤ Frequency.val Frequency.Hour * mult := by
      simp only [Frequency.val, MS_IN_HOUR]
      omega
    have hm := Nat.mod_lt (to_unixtime now - to_unixtime start)
      (show 0 < Frequency.val Frequency.Hour * mult by omega)
    split_ifs <;> omega
  | Minute =>
    simp only [ruleDelta]
    have hv : 1 ≤ Frequency.val Frequency.Minute * mult := by
      simp only [Frequency.val, MS_IN_MIN]
      omega
    have hm := Nat.mod_lt (to_unixtime now - to_unixtime start)
      (show 0 < Frequency.val Frequency.Minute * mult by omega)
    split_ifs <;> omega
  | Second =>
    simp only [ruleDelta]
    have hv : 1 ≤ Frequency.val Frequency.Second * mult := by
      simp only [Frequency.val, MS_IN_SEC]
      omega
    have hm := Nat.mod_lt (to_unixtime now - to_unixtime start)
      (show 0 < Frequency.val Frequency.Second * mult by omega)
    split_ifs <;> omega
  | Ms =>
    simp only [ruleDelta]
    have hv : 1 ≤ Frequency.val Frequency.Ms * mult := by
      simp only [Frequency.val]
      omega
    have hm := Nat.mod_lt (to_unixtime now - to_unixtime start)
      (show 0 < Frequency.val Frequency.Ms * mult by omega)
    split_ifs <;> omega

/-- C10 (amended): with valid `now` and `start`, positive multipliers, and
no `u32`/`u16` cast truncation in the Year/Month candidates, every reported
delta is strictly positive; in particular a fixed-duration rule whose
period divides the elapsed time reports the full period ("already fired,
report the next one"), never 0. -/
theorem claim_C10 (now : DateTime) (s : Schedule) (d : Nat)
    (hvs : validate s.start = ValidationResult.Valid)
    (hvn : validate now = ValidationResult.Valid)
    (hmult : ∀ r ∈ s.items, 1 ≤ r.2)
    (hnt : ∀ r ∈ s.items, ruleNoTrunc s.start now r)
    (hsome : next_occurrence_ms now s = some d) :
    0 < d ∧
    (∀ f mult, 1 ≤ mult → f ≠ Frequency.Year → f ≠ Frequency.Month →
      (to_unixtime now - to_unixtime s.start) % (Frequency.val f * mult) = 0 →
      ruleDelta s.start now (to_unixtime s.start) (to_unixtime now) (f, mult)
        = Frequency.val f * mult) := by
  constructor
  · by_cases hlt : to_unixtime now < to_unixtime s.start
    · unfold next_occurrence_ms at hsome
      rw [if_pos hlt] at hsome
      have := Option.some_inj.mp hsome
      omega
    · rw [next_occurrence_ms_eq now s hlt] at hsome
      by_cases hexp : (match s.stop with
          | some end_dt => decide (to_unixtime end_dt < to_unixtime now)
          | none => false) = true
      · rw [if_pos hexp] at hsome
        exact absurd hsome (by simp)
      · rw [if_neg hexp] at hsome
        cases hmin : (s.items.map
            (ruleDelta s.start now (to_unixtime s.start) (to_unixtime now))).min? with
        | none =>
          rw [hmin] at hsome
          exact absurd hsome (by simp)
        | some t =>
          rw [hmin] at hsome
          have hdt : d = t := by
            cases hstop : s.stop with
            | none =>
              rw [hstop] at hsome
              exact (Option.some_inj.mp hsome).symm
            | some e =>
              rw [hstop] at hsome
              have hsome' : (if to_unixtime now + t ≤ to_unixtime e then some t
                  else none) = some d := hsome
              by_cases hle : to_unixtime now + t ≤ to_unixtime e
              · rw [if_pos hle] at hsome'
                exact (Option.some_inj.mp hsome').symm
              · rw [if_neg hle] at hsome'
                exact absurd hsome' (by simp)
          have hmem := List.min?_mem (fun a b : Nat => min_choice a b) hmin
          obtain ⟨r, hr, hrd⟩ := List.mem_map.mp hmem
          subst hdt
          rw [← hrd]
          exact ruleDelta_pos s.start now r hvs hvn (by omega)
            (hmult r hr) (hnt r hr)
  · intro f mult h1 hny hnm hmod
    cases f <;> simp only [ruleDelta] <;> first
      | exact absurd rfl hny
      | exact absurd rfl hnm
      | rw [hmod, if_pos rfl]

/-- C10 counterexample: the Year rule with the legal `u32` multiplier 65546
wraps its candidate year through the `u16` cast back onto `now`
(2000 + 65546 maps to year increment 10), so the query reports a delta of
exactly 0, refuting the unqualified "strictly positive" claim. -/
theorem claim_C10_counterexample :
    next_occurrence_ms ⟨2010, 1, 1, 0, 0, 0, 0⟩
      ⟨⟨2000, 1, 1, 0, 0, 0, 0⟩, [(Frequency.Year, 65546)], none⟩ = some 0 := by
  decide

theorem claim_C10_witness : (0 : Nat) < 2000 :=
  (claim_C10 ⟨2000, 1, 1, 0, 0, 1, 0⟩
    ⟨⟨2000, 1, 1, 0, 0, 0, 0⟩, [(Frequency.Second, 3)], none⟩ 2000
    (by decide) (by decide)
    (by intro r hr; simp only [List.mem_singleton] at hr; subst hr; decide)
    (by intro r hr; simp only [List.mem_singleton] at hr; subst hr;
        simp only [ruleNoTrunc])
    (by decide)).1

/-- A reported delta of a started schedule always comes from one of its
rules. -/
lemma next_some_mem (now : DateTime) (s : Schedule) (d : Nat)
    (hns : ¬ to_unixtime now < to_unixtime s.start)
    (hsome : next_occurrence_ms now s = some d) :
    ∃ r ∈ s.items,
      d = ruleDelta s.start now (to_unixtime s.start) (to_unixtime now) r := by
  rw [next_occurrence_ms_eq now s hns] at hsome
  by_cases hexp : (match s.stop with
      | some end_dt => decide (to_unixtime end_dt < to_unixtime now)
      | none => false) = true
  · rw [if_pos hexp] at hsome
    exact absurd hsome (by simp)
  · rw [if_neg hexp] at hsome
    cases hmin : (s.items.map
        (ruleDelta s.start now (to_unixtime s.start) (to_unixtime now))).min? with
    | none =>
      rw [hmin] at hsome
      exact absurd hsome (by simp)
    | some t =>
      rw [hmin] at hsome
      have hdt : d = t := by
        cases hstop : s.stop with
        | none =>
          rw [hstop] at hsome
          exact (Option.some_inj.mp hsome).symm
        | some e =>
          rw [hstop] at hsome
          have hsome' : (if to_unixtime now + t ≤ to_unixtime e then some t
              else none) = some d := hsome
          by_cases hle : to_unixtime now + t ≤ to_unixtime e
          · rw [if_pos hle] at hsome'
            exact (Option.some_inj.mp hsome').symm
          · rw [if_neg hle] at hsome'
            exact absurd hsome' (by simp)
      have hmem := List.min?_mem (fun a b : Nat => min_choice a b) hmin
      obtain ⟨r, hr, hrd⟩ := List.mem_map.mp hmem
      exact ⟨r, hr, by omega⟩

/-- Fixed-duration rule deltas are positive for any cursor, without any
validity assumption. -/
lemma ruleDelta_fixed_pos (start now : DateTime) (startMs nowMs : Nat)
    (f : Frequency) (mult : Nat)
    (hy : f ≠ Frequency.Year) (hm : f ≠ Frequency.Month)
    (hv : 1 ≤ Frequency.val f * mult) :
    0 < ruleDelta start now startMs nowMs (f, mult) := by
  have hmlt := Nat.mod_lt (nowMs - startMs)
    (show 0 < Frequency.val f * mult by omega)
  cases f <;> first
    | exact absurd rfl hy
    | exact absurd rfl hm
    | (simp only [ruleDelta]
       simp only [Frequency.val] at hmlt hv ⊢
       split_ifs <;> omega)

/-- A schedule made only of fixed-duration rules with nonzero periods
reports positive deltas from every cursor. -/
lemma next_pos_of_fixed (s : Schedule)
    (hfix : ∀ r ∈ s.items, r.1 ≠ Frequency.Year ∧ r.1 ≠ Frequency.Month ∧
      1 ≤ Frequency.val r.1 * r.2) :
    ∀ dt d, next_occurrence_ms dt s = some d → 0 < d := by
  intro dt d hsome
  by_cases hlt : to_unixtime dt < to_unixtime s.start
  · unfold next_occurrence_ms at hsome
    rw [if_pos hlt] at hsome
    have := Option.some_inj.mp hsome
    omega
  · obtain ⟨r, hr, hrd⟩ := next_some_mem dt s d hlt hsome
    obtain ⟨h1, h2, h3⟩ := hfix r hr
    rw [hrd]
    have := ruleDelta_fixed_pos s.start dt (to_unixtime s.start) (to_unixtime dt)
      r.1 r.2 h1 h2 h3
    simpa using this

/-- Modelled from the spec: the chain of trigger instants of section 4.5 —
query the engine at the cursor, advance the cursor by the reported delta,
and repeat; entry `n` is the `n`-th trigger timestamp, `none` once the
engine reports no occurrence. The first query uses the caller's cursor
date/time itself; later queries use the decoded previous trigger, exactly
as the enumerator's loop does. -/
def triggerSeq (s : Schedule) (cur0 : DateTime) : Nat → Option Nat
  | 0 => (next_occurrence_ms cur0 s).map (· + to_unixtime cur0)
  | n + 1 =>
    match triggerSeq s cur0 n with
    | none => none
    | some t => (next_occurrence_ms (from_unixtime t) s).map (· + t)

/-- A timestamp is a trigger instant when some chain entry hits it. -/
def IsTriggerInstant (s : Schedule) (cur0 : DateTime) (t : Nat) : Prop :=
  ∃ n, triggerSeq s cur0 n = some t

lemma triggerSeq_none_mono (s : Schedule) (cur0 : DateTime) :
    ∀ {n m}, n ≤ m → triggerSeq s cur0 n = none → triggerSeq s cur0 m = none := by
  intro n m
  induction m with
  | zero =>
    intro h hn
    have h0 : n = 0 := by omega
    subst h0
    exact hn
  | succ m ih =>
    intro h hn
    by_cases hnm : n ≤ m
    · have hm := ih hnm hn
      simp [triggerSeq, hm]
    · have he : n = m + 1 := by omega
      subst he
      exact hn

lemma triggerSeq_succ_some (s : Schedule) (cur0 : DateTime) {n : Nat} {t : Nat}
    (h : triggerSeq s cur0 (n + 1) = some t) :
    ∃ u, triggerSeq s cur0 n = some u := by
  cases hu : triggerSeq s cur0 n with
  | none =>
    rw [show triggerSeq s cur0 (n + 1) = none by simp [triggerSeq, hu]] at h
    exact absurd h (by simp)
  | some u => exact ⟨u, rfl⟩

lemma triggerSeq_succ_gt (s : Schedule) (cur0 : DateTime)
    (hpos : ∀ dt d, next_occurrence_ms dt s = some d → 0 < d)
    {n : Nat} {t u : Nat} (hn : triggerSeq s cur0 n = some t)
    (hm : triggerSeq s cur0 (n + 1) = some u) : t < u := by
  rw [show triggerSeq s cur0 (n + 1)
      = (next_occurrence_ms (from_unixtime t) s).map (· + t) by
    simp [triggerSeq, hn]] at hm
  obtain ⟨d, hd, hdu⟩ := Option.map_eq_some'.mp hm
  have := hpos (from_unixtime t) d hd
  omega

lemma triggerSeq_strict (s : Schedule) (cur0 : DateTime)
    (hpos : ∀ dt d, next_occurrence_ms dt s = some d → 0 < d) :
    ∀ {m n t u}, n < m → triggerSeq s cur0 n = some t →
      triggerSeq s cur0 m = some u → t < u := by
  intro m
  induction m with
  | zero =>
    intro n t u h _ _
    exact absurd h (by omega)
  | succ m ih =>
    intro n t u h hn hm
    obtain ⟨w, hw⟩ := triggerSeq_succ_some s cur0 hm
    have hlt := triggerSeq_succ_gt s cur0 hpos hw hm
    rcases Nat.lt_succ_iff_lt_or_eq.mp h with h' | h'
    · exact lt_trans (ih h' hn hw) hlt
    · subst h'
      rw [hn] at hw
      have := Option.some_inj.mp hw
      omega

lemma triggerSeq_le (s : Schedule) (cur0 : DateTime)
    (hpos : ∀ dt d, next_occurrence_ms dt s = some d → 0 < d)
    {n m t u : Nat} (h : n ≤ m) (hn : triggerSeq s cur0 n = some t)
    (hm : triggerSeq s cur0 m = some u) : t ≤ u := by
  rcases Nat.lt_or_eq_of_le h with h' | h'
  · exact Nat.le_of_lt (triggerSeq_strict s cur0 hpos h' hn hm)
  · subst h'
    rw [hn] at hm
    exact Nat.le_of_eq (Option.some_inj.mp hm)

/-- Loop invariant of the past-trigger enumerator: under positive deltas the
loop returns exactly the chain entries at or before `now`, strictly
ascending and above the cursor, and its reported next trigger is the least
chain entry strictly after `now` (none exactly when the chain expires
first). -/
lemma pastTriggersLoop_exact (s : Schedule) (now : DateTime) (cur0 : DateTime)
    (hpos : ∀ dt d, next_occurrence_ms dt s = some d → 0 < d)
    (hc : to_unixtime cur0 ≤ to_unixtime now) :
    ∀ fuel (lr : DateTime) (lrms : Nat) (acc : List Nat) (nt : Option Nat),
      ((lr = cur0 ∧ lrms = to_unixtime cur0 ∧ acc = [] ∧ nt = none) ∨
       (∃ k, triggerSeq s cur0 k = some lrms ∧ lr = from_unixtime lrms ∧
         nt = some lrms ∧ lrms ≤ to_unixtime now ∧
         (∀ t, t ∈ acc ↔ ∃ i, i ≤ k ∧ triggerSeq s cur0 i = some t))) →
      List.Chain' (· < ·) acc →
      (∀ t ∈ acc, to_unixtime cur0 < t ∧ t ≤ lrms) →
      to_unixtime cur0 ≤ lrms →
      to_unixtime now + 2 - lrms ≤ fuel →
      List.Chain' (· < ·) (pastTriggersLoop s (to_unixtime now) lr lrms acc nt fuel).1 ∧
      (∀ t, t ∈ (pastTriggersLoop s (to_unixtime now) lr lrms acc nt fuel).1 ↔
        (IsTriggerInstant s cur0 t ∧ t ≤ to_unixtime now)) ∧
      (∀ t ∈ (pastTriggersLoop s (to_unixtime now) lr lrms acc nt fuel).1,
        to_unixtime cur0 < t) ∧
      (∀ x, (pastTriggersLoop s (to_unixtime now) lr lrms acc nt fuel).2 = some x →
        IsTriggerInstant s cur0 x ∧ to_unixtime now < x ∧
        ∀ t, IsTriggerInstant s cur0 t → to_unixtime now < t → x ≤ t) ∧
      ((pastTriggersLoop s (to_unixtime now) lr lrms acc nt fuel).2 = none →
        ∀ t, IsTriggerInstant s cur0 t → t ≤ to_unixtime now) := by
  intro fuel
  induction fuel with
  | zero =>
    intro lr lrms acc nt hstate hchain hbounds hcur hfuel
    exfalso
    rcases hstate with ⟨_, h2, _, _⟩ | ⟨k, _, _, _, h5, _⟩
    · omega
    · omega
  | succ fuel ih =>
    intro lr lrms acc nt hstate hchain hbounds hcur hfuel
    have hlrnow : lrms ≤ to_unixtime now := by
      rcases hstate with ⟨_, h2, _, _⟩ | ⟨k, _, _, _, h5, _⟩
      · omega
      · exact h5
    simp only [pastTriggersLoop]
    rw [if_pos hlrnow]
    rcases hstate with ⟨hlr, hlrms, hacc, hnt⟩ | ⟨k, hk, hlr, hnt, hknow, hacciff⟩
    · subst hacc hnt
      rw [hlr, hlrms]
      cases hnext : next_occurrence_ms cur0 s with
      | none =>
        have hseq0 : triggerSeq s cur0 0 = none := by simp [triggerSeq, hnext]
        have hnone : ∀ i, triggerSeq s cur0 i = none := fun i =>
          triggerSeq_none_mono s cur0 (Nat.zero_le i) hseq0
        refine ⟨List.chain'_nil, ?_, by simp, ?_, ?_⟩
        · intro t
          simp only [List.not_mem_nil, false_iff]
          rintro ⟨⟨i, hi⟩, _⟩
          rw [hnone i] at hi
          exact absurd hi (by simp)
        · intro x hx
          exact absurd hx (by simp)
        · rintro _ t ⟨i, hi⟩
          rw [hnone i] at hi
          exact absurd hi (by simp)
      | some d =>
        have hd := hpos cur0 d hnext
        have hseq0 : triggerSeq s cur0 0 = some (d + to_unixtime cur0) := by
          simp [triggerSeq, hnext]
        dsimp only
        by_cases htle : d + to_unixtime cur0 ≤ to_unixtime now
        · rw [if_pos htle]
          apply ih
          · right
            refine ⟨0, hseq0, rfl, rfl, htle, ?_⟩
            intro t
            simp only [List.nil_append, List.mem_singleton]
            constructor
            · rintro rfl
              exact ⟨0, Nat.le_refl 0, hseq0⟩
            · rintro ⟨i, hi0, hi⟩
              have h0 : i = 0 := by omega
              subst h0
              rw [hseq0] at hi
              exact (Option.some_inj.mp hi).symm
          · simp only [List.nil_append]
            exact List.chain'_singleton (d + to_unixtime cur0)
          · intro t ht
            simp only [List.nil_append, List.mem_singleton] at ht
            subst ht
            omega
          · omega
          · omega
        · rw [if_neg htle]
          refine ⟨List.chain'_nil, ?_, by simp, ?_, fun h => absurd h (by simp)⟩
          · intro t
            simp only [List.not_mem_nil, false_iff]
            rintro ⟨⟨i, hi⟩, htle2⟩
            rcases Nat.eq_zero_or_pos i with rfl | hipos
            · rw [hseq0] at hi
              have := Option.some_inj.mp hi
              omega
            · have := triggerSeq_strict s cur0 hpos
                (show 0 < i by omega) hseq0 hi
              omega
          · intro x hx
            have hxeq : d + to_unixtime cur0 = x := Option.some_inj.mp hx
            refine ⟨⟨0, by rw [← hxeq]; exact hseq0⟩, by omega, ?_⟩
            rintro t ⟨i, hi⟩ htgt
            rcases Nat.eq_zero_or_pos i with rfl | hipos
            · rw [hseq0] at hi
              have := Option.some_inj.mp hi
              omega
            · have := triggerSeq_strict s cur0 hpos
                (show 0 < i by omega) hseq0 hi
              omega
    · subst hlr hnt
      cases hnext : next_occurrence_ms (from_unixtime lrms) s with
      | none =>
        have hseqk1 : triggerSeq s cur0 (k + 1) = none := by
          simp [triggerSeq, hk, hnext]
        have hle_of_mem : ∀ i t, triggerSeq s cur0 i = some t → t ≤ lrms := by
          intro i t hi
          have hik : i ≤ k := by
            by_contra hik
            push_neg at hik
            rw [triggerSeq_none_mono s cur0 (show k + 1 ≤ i by omega) hseqk1] at hi
            exact absurd hi (by simp)
          exact triggerSeq_le s cur0 hpos hik hi hk
        refine ⟨hchain, ?_, fun t ht => (hbounds t ht).1, ?_, ?_⟩
        · intro t
          constructor
          · intro ht
            obtain ⟨i, hik, hi⟩ := (hacciff t).mp ht
            exact ⟨⟨i, hi⟩, by have := hbounds t ht; omega⟩
          · rintro ⟨⟨i, hi⟩, htle2⟩
            apply (hacciff t).mpr
            refine ⟨i, ?_, hi⟩
            by_contra hik
            push_neg at hik
            rw [triggerSeq_none_mono s cur0 (show k + 1 ≤ i by omega) hseqk1] at hi
            exact absurd hi (by simp)
        · intro x hx
          exact absurd hx (by simp)
        · rintro _ t ⟨i, hi⟩
          have := hle_of_mem i t hi
          omega
      | some d =>
        have hd := hpos (from_unixtime lrms) d hnext
        have hseqk1 : triggerSeq s cur0 (k + 1) = some (d + lrms) := by
          simp [triggerSeq, hk, hnext]
        dsimp only
        by_cases htle : d + lrms ≤ to_unixtime now
        · rw [if_pos htle]
          apply ih
          · right
            refine ⟨k + 1, hseqk1, rfl, rfl, htle, ?_⟩
            intro t
            rw [List.mem_append, List.mem_singleton]
            constructor
            · rintro (ht | rfl)
              · obtain ⟨i, hik, hi⟩ := (hacciff t).mp ht
                exact ⟨i, by omega, hi⟩
              · exact ⟨k + 1, Nat.le_refl _, hseqk1⟩
            · rintro ⟨i, hik1, hi⟩
              by_cases hik : i ≤ k
              · exact Or.inl ((hacciff t).mpr ⟨i, hik, hi⟩)
              · have he : i = k + 1 := by omega
                subst he
                rw [hseqk1] at hi
                exact Or.inr (Option.some_inj.mp hi).symm
          · rw [List.chain'_append]
            refine ⟨hchain, List.chain'_singleton _, ?_⟩
            intro x hx y hy
            simp only [List.head?_cons, Option.mem_def, Option.some_inj] at hy
            have := hbounds x (List.mem_of_mem_getLast? hx)
            omega
          · intro t ht
            rcases List.mem_append.mp ht with ht | ht
            · have := hbounds t ht
              omega
            · simp only [List.mem_singleton] at ht
              omega
          · omega
          · omega
        · rw [if_neg htle]
          have hle_of_le_k : ∀ i t, i ≤ k → triggerSeq s cur0 i = some t → t ≤ lrms :=
            fun i t hik hi => triggerSeq_le s cur0 hpos hik hi hk
          refine ⟨hchain, ?_, fun t ht => (hbounds t ht).1, ?_,
            fun h => absurd h (by simp)⟩
          · intro t
            constructor
            · intro ht
              obtain ⟨i, hik, hi⟩ := (hacciff t).mp ht
              exact ⟨⟨i, hi⟩, by have := hbounds t ht; omega⟩
            · rintro ⟨⟨i, hi⟩, htle2⟩
              apply (hacciff t).mpr
              refine ⟨i, ?_, hi⟩
              by_contra hik
              push_neg at hik
              have := triggerSeq_le s cur0 hpos (show k + 1 ≤ i by omega) hseqk1 hi
              omega
          · intro x hx
            have hxeq : d + lrms = x := Option.some_inj.mp hx
            refine ⟨⟨k + 1, by rw [← hxeq]; exact hseqk1⟩, by omega, ?_⟩
            rintro t ⟨i, hi⟩ htgt
            by_cases hik : i ≤ k
            · have := hle_of_le_k i t hik hi
              omega
            · have := triggerSeq_le s cur0 hpos (show k + 1 ≤ i by omega) hseqk1 hi
              omega

/-- C7: with a cursor at or before `now` and positive per-cursor deltas, the
enumerator returns exactly the trigger instants (the chain of section 4.5,
embedded as `triggerSeq`) lying in `(cursor_ts, now_ts]`, in strictly
ascending order; the paired delta satisfies `now_ts + delta = t` for the
least trigger instant `t` strictly after `now_ts`, and is `none` exactly
when the chain expires before producing such an instant; on the
repository's own Hour x3 example (start hour 2, end hour 23, now hour 6,
no last run) it returns the triggers at hours 2 and 5 and a future delta
of 2 hours. -/
theorem claim_C7 (last_run : Option DateTime) (now : DateTime) (s : Schedule)
    (hpos : ∀ dt d, next_occurrence_ms dt s = some d → 0 < d)
    (hc : to_unixtime (last_run.getD ⟨1970, 1, 1, 0, 0, 0, 0⟩) ≤ to_unixtime now) :
    List.Chain' (· < ·) (next_occurrence_ms_with_past_triggers last_run now s).1 ∧
    (∀ t, t ∈ (next_occurrence_ms_with_past_triggers last_run now s).1 ↔
      (IsTriggerInstant s (last_run.getD ⟨1970, 1, 1, 0, 0, 0, 0⟩) t ∧
        t ≤ to_unixtime now)) ∧
    (∀ t ∈ (next_occurrence_ms_with_past_triggers last_run now s).1,
      to_unixtime (last_run.getD ⟨1970, 1, 1, 0, 0, 0, 0⟩) < t) ∧
    (∀ x, (next_occurrence_ms_with_past_triggers last_run now s).2 = some x →
      IsTriggerInstant s (last_run.getD ⟨1970, 1, 1, 0, 0, 0, 0⟩)
        (to_unixtime now + x) ∧ 0 < x ∧
      ∀ t, IsTriggerInstant s (last_run.getD ⟨1970, 1, 1, 0, 0, 0, 0⟩) t →
        to_unixtime now < t → to_unixtime now + x ≤ t) ∧
    ((next_occurrence_ms_with_past_triggers last_run now s).2 = none →
      ∀ t, IsTriggerInstant s (last_run.getD ⟨1970, 1, 1, 0, 0, 0, 0⟩) t →
        t ≤ to_unixtime now) ∧
    next_occurrence_ms_with_past_triggers none ⟨2000, 1, 1, 6, 0, 0, 0⟩
      ⟨⟨2000, 1, 1, 2, 0, 0, 0⟩, [(Frequency.Hour, 3)], some ⟨2000, 1, 1, 23, 0, 0, 0⟩⟩
      = ([to_unixtime ⟨2000, 1, 1, 2, 0, 0, 0⟩, to_unixtime ⟨2000, 1, 1, 5, 0, 0, 0⟩],
         some (2 * 60 * 60 * 1000)) := by
  have hloop := pastTriggersLoop_exact s now (last_run.getD ⟨1970, 1, 1, 0, 0, 0, 0⟩)
    hpos hc
    (to_unixtime now + 2 - to_unixtime (last_run.getD ⟨1970, 1, 1, 0, 0, 0, 0⟩))
    (last_run.getD ⟨1970, 1, 1, 0, 0, 0, 0⟩)
    (to_unixtime (last_run.getD ⟨1970, 1, 1, 0, 0, 0, 0⟩)) [] none
    (Or.inl ⟨rfl, rfl, rfl, rfl⟩) List.chain'_nil (by simp)
    (Nat.le_refl _) (Nat.le_refl _)
  unfold next_occurrence_ms_with_past_triggers
  refine ⟨hloop.1, hloop.2.1, hloop.2.2.1, ?_, ?_, by decide⟩
  · intro x hx
    simp only [Option.map_eq_some'] at hx
    obtain ⟨t, hteq, hsub⟩ := hx
    obtain ⟨hmem, hgt, hleast⟩ := hloop.2.2.2.1 t hteq
    have hxt : to_unixtime now + x = t := by omega
    refine ⟨by rw [hxt]; exact hmem, by omega, ?_⟩
    intro t' hmem' hgt'
    rw [hxt]
    exact hleast t' hmem' hgt'
  · intro hx
    simp only [Option.map_eq_none'] at hx
    exact hloop.2.2.2.2 hx

theorem claim_C7_witness :
    next_occurrence_ms_with_past_triggers none ⟨2000, 1, 1, 6, 0, 0, 0⟩
      ⟨⟨2000, 1, 1, 2, 0, 0, 0⟩, [(Frequency.Hour, 3)], some ⟨2000, 1, 1, 23, 0, 0, 0⟩⟩
      = ([to_unixtime ⟨2000, 1, 1, 2, 0, 0, 0⟩, to_unixtime ⟨2000, 1, 1, 5, 0, 0, 0⟩],
         some (2 * 60 * 60 * 1000)) :=
  (claim_C7 none ⟨2000, 1, 1, 6, 0, 0, 0⟩
    ⟨⟨2000, 1, 1, 2, 0, 0, 0⟩, [(Frequency.Hour, 3)], some ⟨2000, 1, 1, 23, 0, 0, 0⟩⟩
    (next_pos_of_fixed _ (by decide)) (by decide)).2.2.2.2.2

end ChronoLight
